import Mathlib

set_option linter.unusedSectionVars false

/-!
# Verification of `base_changeset/models/base.py`

Shallow embedding of the Odoo `base_changeset` hook layer (`Base` abstract
model) and proofs about its behaviour.

Modelling conventions:
* Python dicts of field values are association lists `Vals V` with distinct
  keys (the key-distinctness is carried as a hypothesis where it matters).
* The Odoo environment (context, `config`, configuration rules, groups,
  view references, stored changesets) is a record `Env`.
* The external entity `record.changeset` is outside this file in the source
  repository; its `add_changeset` method is a parameter `addCs` of the
  interceptors, and its side effect (creating a changeset) is modelled by
  recording the calls made to it in the interceptor's result.
* `config["test_enable"]` is the boolean `Env.test_enable`; the context key
  `__no_changeset` holding the module's sentinel object is the boolean
  `Ctx.no_changeset` (any other context value compares unequal to the
  sentinel, hence behaves as `false`).
-/

namespace BaseChangeset

/-- The evaluation context (`self.env.context`): the keys this module reads
or sets.  `no_changeset` is true exactly when the key `__no_changeset` holds
the module's `disable_changeset` sentinel object. -/
structure Ctx where
  no_changeset : Bool
  test_record_changeset : Bool
  tracking_disable : Bool
  search_default_record_id : Option Nat
deriving DecidableEq, Repr

/-- One change line of a changeset (external model
`record.changeset.change`): only its state is relevant here. -/
structure Change where
  state : String
deriving DecidableEq, Repr

/-- A stored changeset (external model `record.changeset`): the fields the
computed counters read. -/
structure Changeset where
  model : String
  res_id : Nat
  state : String
  change_ids : List Change
deriving DecidableEq, Repr

/-- The host environment: context, global config, the
`changeset.field.rule` configuration (as the list of `model_id.model`
names of the rule records, in search order), the current user's
permission bits, the two view references resolved by `env.ref`, the stored
changesets, and the pending-state set of the external change model. -/
structure Env where
  ctx : Ctx
  test_enable : Bool
  rule_model_names : List String
  is_superuser : Bool
  has_group_changeset_user : Bool
  tree_view_id : Nat
  search_view_id : Nat
  changesets : List Changeset
  pending_states : List String
deriving DecidableEq, Repr

/-- Odoo recordset union: append a member only if not already present.
`recordset.mapped` over a relational path accumulates targets this way,
which deduplicates while keeping first-occurrence order. -/
def addUnique (acc : List String) (m : String) : List String :=
  if m ∈ acc then acc else acc ++ [m]

/-- `search([]).mapped("model_id.model")`: the model names of the rule
records, deduplicated keeping first occurrences. -/
def mappedRuleModels (env : Env) : List String :=
  env.rule_model_names.foldl addUnique []

/-- `Base.models_to_track_changeset`: models to be tracked for changes.
Reads the configuration rules; in test mode with the
`test_record_changeset` context flag, appends `"res.partner"` when it is
not already present. -/
def models_to_track_changeset (env : Env) : List String :=
  let ms := mappedRuleModels env
  if env.test_enable && env.ctx.test_record_changeset then
    if "res.partner" ∈ ms then ms else ms ++ ["res.partner"]
  else ms

/-- `Base._changeset_disabled`: the context sentinel, or the test harness
active without the test flag, or the model not tracked. -/
def changeset_disabled (env : Env) (name : String) : Bool :=
  if env.ctx.no_changeset then true
  else if env.test_enable && !env.ctx.test_record_changeset then true
  else if name ∉ models_to_track_changeset env then true
  else false

section Interceptors

variable {V : Type} [DecidableEq V]

/-- A Python dict of field values: association list keyed by field name.
Dict keys are distinct; that fact is carried as a hypothesis where a proof
needs it. -/
abbrev Vals (V : Type) := List (String × V)

/-- `d[k]` / `d.get(k)`: the first binding of `k`. -/
def lookupVal (d : Vals V) (k : String) : Option V :=
  (d.find? (fun p => p.1 = k)).map Prod.snd

/-- A database record: its id and its stored field values. -/
structure Rec (V : Type) where
  id : Nat
  fields : Vals V
deriving DecidableEq, Repr

/-- Set one field on stored values (dict update `d[k] = v`): overwrite the
binding in place, else append. -/
def setField : Vals V → String → V → Vals V
  | [], k, v => [(k, v)]
  | p :: rest, k, v => if p.1 = k then (k, v) :: rest else p :: setField rest k v

/-- Apply a dict of values onto stored values, left to right. -/
def applyVals (fs : Vals V) (vals : Vals V) : Vals V :=
  vals.foldl (fun acc p => setField acc p.1 p.2) fs

/-- The host ORM `write` (what `super().write` does to one record):
apply the values to the stored fields. -/
def super_write (r : Rec V) (values : Vals V) : Rec V :=
  { r with fields := applyVals r.fields values }

/-- The host ORM `create` (what `super().create` does): one record per
dict, ids assigned sequentially, fields are the model defaults overridden
by the requested values. -/
def super_create (defaults : Vals V) (nextId : Nat) (vals_list : List (Vals V)) :
    List (Rec V) :=
  (List.enumFrom nextId vals_list).map (fun p => ⟨p.1, applyVals defaults p.2⟩)

/-- The signature of the external `record.changeset.add_changeset`: given
the record, the requested values and the `create` flag, return the dict of
values to apply now. -/
abbrev AddChangeset (V : Type) := Rec V → Vals V → Bool → Vals V

/-- `Base.write`: if the changeset is disabled delegate to the host write
(whose return value `superRet` is the host's), else for each record apply
only the values `add_changeset` returns and report `True`. -/
def write (env : Env) (name : String) (addCs : AddChangeset V) (superRet : Bool)
    (recs : List (Rec V)) (values : Vals V) : List (Rec V) × Bool :=
  if changeset_disabled env name then
    (recs.map (fun r => super_write r values), superRet)
  else
    (recs.map (fun r => super_write r (addCs r values false)), true)

/-- The dict comprehension
`{key: value for key, value in local_vals.items() if vals[key] != value}`:
`none` models the `KeyError` raised when a key of `local_vals` is not in
`vals`. -/
def filterDiffer (vals : Vals V) : Vals V → Option (Vals V)
  | [] => some []
  | (k, v) :: rest =>
    match lookupVal vals k with
    | none => none
    | some w =>
      match filterDiffer vals rest with
      | none => none
      | some f => some (if w ≠ v then (k, v) :: f else f)

/-- The context of the inner write-back in `Base.create`:
`with_context(__no_changeset=disable_changeset, tracking_disable=True)`. -/
def innerEnv (env : Env) : Env :=
  { env with ctx := { env.ctx with no_changeset := true, tracking_disable := true } }

/-- `Base.write` restricted to one record (the loop body acts on each
record individually, so `write` is this map). -/
def write1 (env : Env) (name : String) (addCs : AddChangeset V)
    (r : Rec V) (values : Vals V) : Rec V :=
  if changeset_disabled env name then super_write r values
  else super_write r (addCs r values false)

/-- One iteration of the `create` loop: call `add_changeset` with
`create=True`, filter the values that differ from the request, and when the
filtered dict is non-empty write it back through `Base.write` under
`innerEnv`.  Returns the final record and the inner writes performed. -/
def create_one (env : Env) (name : String) (addCs : AddChangeset V)
    (defaults : Vals V) (id : Nat) (vals : Vals V) :
    Option (Rec V × List (Nat × Vals V)) :=
  let r := Rec.mk id (applyVals defaults vals)
  let lv := addCs r vals true
  match filterDiffer vals lv with
  | none => none
  | some filtered =>
    if filtered.isEmpty then some (r, [])
    else some (write1 (innerEnv env) name addCs r filtered, [(id, filtered)])

/-- The `create` loop over `zip(result, vals_list)`. -/
def createAll (env : Env) (name : String) (addCs : AddChangeset V)
    (defaults : Vals V) : Nat → List (Vals V) →
    Option (List (Rec V) × List (Nat × Vals V))
  | _, [] => some ([], [])
  | id, vals :: rest =>
    match create_one env name addCs defaults id vals with
    | none => none
    | some (r, ws) =>
      match createAll env name addCs defaults (id + 1) rest with
      | none => none
      | some (rs, wss) => some (r :: rs, ws ++ wss)

/-- The outcome of `Base.create`: the records returned, the calls made to
`record.changeset.add_changeset` (record id, values, `create` flag), and
the inner write-backs performed (record id, values written). -/
structure CreateResult (V : Type) where
  recs : List (Rec V)
  csCalls : List (Nat × Vals V × Bool)
  innerWrites : List (Nat × Vals V)
deriving DecidableEq, Repr

/-- `Base.create`: create via the host, then, unless disabled, run the
changeset loop over the created records.  `none` models the `KeyError` from
the filtering dict comprehension. -/
def create (env : Env) (name : String) (addCs : AddChangeset V)
    (defaults : Vals V) (nextId : Nat) (vals_list : List (Vals V)) :
    Option (CreateResult V) :=
  let recs := super_create defaults nextId vals_list
  if changeset_disabled env name then some ⟨recs, [], []⟩
  else
    match createAll env name addCs defaults nextId vals_list with
    | none => none
    | some (rs, ws) =>
      some ⟨rs, (List.enumFrom nextId vals_list).map (fun p => (p.1, p.2, true)), ws⟩

/-- The untracked base behaviour of `create`, per the spec: the plain host
create, no changeset interaction. -/
def base_create (defaults : Vals V) (nextId : Nat) (vals_list : List (Vals V)) :
    List (Rec V) :=
  super_create defaults nextId vals_list

/-- The untracked base behaviour of `write`, per the spec: the plain host
write with the host's own return value. -/
def base_write (superRet : Bool) (recs : List (Rec V)) (values : Vals V) :
    List (Rec V) × Bool :=
  (recs.map (fun r => super_write r values), superRet)

end Interceptors

/-- `Base._user_can_see_changeset`: superuser, or member of
`base_changeset.group_changeset_user`. -/
def user_can_see_changeset (env : Env) : Bool :=
  env.is_superuser || env.has_group_changeset_user

/-- `Base._compute_user_can_see_changeset`: the permission value, assigned
to every record of the recordset (here: one boolean per record). -/
def compute_user_can_see_changeset {V : Type} (env : Env) (recs : List (Rec V)) :
    List Bool :=
  recs.map (fun _ => user_can_see_changeset env)

/-- `Base._compute_changeset_ids` (the `changeset_ids` part): search for
changesets with this model name and record id. -/
def changeset_ids (env : Env) (name : String) (rid : Nat) : List Changeset :=
  env.changesets.filter (fun cs => cs.model == name && cs.res_id == rid)

/-- Modelled from the spec: `get_pending_changes_states` of the external
model `record.changeset.change` is not under `src/`; per the spec each
change's state is drawn from a "pending" subset, modelled as an opaque
state list carried by the environment. -/
def get_pending_changes_states (env : Env) : List String :=
  env.pending_states

/-- `Base._compute_count_pending_changesets` for one record: the triple
(`count_changesets`, `count_pending_changesets`,
`count_pending_changeset_changes`). -/
def compute_counts (env : Env) (name : String) (rid : Nat) : Nat × Nat × Nat :=
  if name ∈ models_to_track_changeset env then
    let changesets := (changeset_ids env name rid).filter
      (fun rev => rev.state == "draft" && rev.res_id == rid && rev.model == name)
    let changes := (changesets.flatMap Changeset.change_ids).filter
      (fun c => (get_pending_changes_states env).contains c.state)
    ((changeset_ids env name rid).length, changesets.length, changes.length)
  else (0, 0, 0)

/-- The window-action descriptor returned by
`Base.action_record_changeset_change_view`.  A domain
`[("model", "=", name), ("changeset_id.res_id", "=", rid)]` is modelled as
the pair `(name, rid)`. -/
structure ActWindow where
  act_type : String
  res_model : String
  view_mode : String
  views : List (Nat × String)
  name : String
  search_view_id : Nat × String
  domain : Option (String × Nat)
deriving DecidableEq, Repr

/-- `Base.action_record_changeset_change_view`: the act-window dict; the
domain is added only when the context carries a truthy
`search_default_record_id`. -/
def action_record_changeset_change_view (env : Env) (name : String) : ActWindow :=
  let res : ActWindow :=
    { act_type := "ir.actions.act_window"
      res_model := "record.changeset.change"
      view_mode := "tree"
      views := [(env.tree_view_id, "list")]
      name := "Record Changes"
      search_view_id := (env.search_view_id, "search")
      domain := none }
  match env.ctx.search_default_record_id with
  | none => res
  | some rid => if rid ≠ 0 then { res with domain := some (name, rid) } else res

mutual

/-- An XML element of a view arch: tag, attributes, children. -/
inductive Arch where
  | node (tag : String) (attrs : List (String × String)) (children : ArchList)

/-- A list of XML elements (mutual with `Arch` to keep recursion
structural). -/
inductive ArchList where
  | nil
  | cons (head : Arch) (tail : ArchList)

end

/-- The xpath target `//div[@name='button_box']`. -/
def isButtonBox (tag : String) (attrs : List (String × String)) : Bool :=
  tag == "div" && ((attrs.find? (fun p => p.1 == "name")).map Prod.snd == some "button_box")

/-- The hidden `count_changesets` field element inserted by `get_view`. -/
def field_count_changesets : Arch :=
  .node "field"
    [("name", "count_changesets"), ("modifiers", "\x7b\x22invisible\x22: true\x7d")]
    .nil

/-- The statinfo `count_pending_changeset_changes` field element inserted
by `get_view` (`button_label` is the translatable string "Changes"). -/
def field_count_pending_changeset_changes : Arch :=
  .node "field"
    [("name", "count_pending_changeset_changes"), ("string", "Changes"),
     ("widget", "statinfo")]
    .nil

/-- The smart button inserted by `get_view`, holding the two field
elements as children (inserted at positions 0 then 0 again, so the hidden
counter comes first). -/
def xml_button : Arch :=
  .node "button"
    [("type", "object"),
     ("name", "action_record_changeset_change_view"),
     ("icon", "fa-code-fork"),
     ("context",
      "\x7b\x27search_default_draft\x27: 1, \x27search_default_record_id\x27: active_id\x7d"),
     ("modifiers", "\x7b\x22invisible\x22: [[\x22count_changesets\x22, \x22=\x22, 0]]\x7d")]
    (.cons field_count_changesets (.cons field_count_pending_changeset_changes .nil))

mutual

/-- The loop `for node in doc.xpath("//div[@name='button_box']"):
node.insert(0, xml_button)`: insert the smart button first under every
button-box element. -/
def insertSmartButton : Arch → Arch
  | .node tag attrs cs =>
    let cs := insertSmartButtonList cs
    if isButtonBox tag attrs then .node tag attrs (.cons xml_button cs)
    else .node tag attrs cs

def insertSmartButtonList : ArchList → ArchList
  | .nil => .nil
  | .cons a as => .cons (insertSmartButton a) (insertSmartButtonList as)

end

mutual

/-- Count the elements of an arch satisfying a predicate on tag and
attributes. -/
def countNodes (p : String → List (String × String) → Bool) : Arch → Nat
  | .node tag attrs cs => (if p tag attrs then 1 else 0) + countNodesList p cs

def countNodesList (p : String → List (String × String) → Bool) : ArchList → Nat
  | .nil => 0
  | .cons a as => countNodes p a + countNodesList p as

end

/-- Button elements. -/
def isButtonNode (tag : String) (_ : List (String × String)) : Bool :=
  tag == "button"

/-- Field elements. -/
def isFieldNode (tag : String) (_ : List (String × String)) : Bool :=
  tag == "field"

/-- `Base.get_view`: patch the arch only for a form view of a tracked
model when the user can see changesets. -/
def get_view (env : Env) (name view_type : String) (arch : Arch) : Arch :=
  if view_type = "form" ∧ name ∈ models_to_track_changeset env ∧
      user_can_see_changeset env = true then
    insertSmartButton arch
  else arch

/-- A tracked-model environment with changesets enabled: one rule for
`res.partner`, no test harness, superuser. -/
def envW : Env :=
  { ctx := ⟨false, false, false, none⟩
    test_enable := false
    rule_model_names := ["res.partner"]
    is_superuser := true
    has_group_changeset_user := false
    tree_view_id := 1
    search_view_id := 2
    changesets := []
    pending_states := ["draft"] }

/-- `envW` with the `__no_changeset` sentinel in the context. -/
def envSentinel : Env :=
  { envW with ctx := ⟨true, false, false, none⟩ }

/-- A non-superuser who belongs to the changeset group. -/
def envGroup : Env :=
  { envW with is_superuser := false, has_group_changeset_user := true }

/-- Test harness on, `test_record_changeset` context flag set, duplicated
rules not naming `res.partner`. -/
def envTestFlags : Env :=
  { envW with
    ctx := ⟨false, true, false, none⟩
    test_enable := true
    rule_model_names := ["crm.lead", "crm.lead", "sale.order"] }

/-- `envW` without a `search_default_record_id` in the context. -/
def envNoRecordId : Env := envW

/-- `envW` with `search_default_record_id = 5` in the context. -/
def envRecId5 : Env :=
  { envW with ctx := ⟨false, false, false, some 5⟩ }

/-- An environment with a stored draft changeset for `x.model` id 5, while
`x.model` has no field rule (untracked). -/
def envW9 : Env :=
  { envW with changesets := [⟨"x.model", 5, "draft", [⟨"draft"⟩]⟩] }

/-- Sample requested values. -/
def valsW : Vals Nat := [("a", 1), ("b", 2)]

/-- Sample model defaults. -/
def defaultsW : Vals Nat := [("a", 0), ("b", 0)]

/-- A sample external `add_changeset`: defer field `a` (return its origin
value `0`) and approve field `b` (return the requested `2`). -/
def addCsW : AddChangeset Nat := fun _ _ _ => [("a", 0), ("b", 2)]

/-- A sample stored record. -/
def recW : Rec Nat := ⟨7, [("a", 1)]⟩

/-- The outcome of `create envW "res.partner" addCsW defaultsW 7 [valsW]`,
spelled out. -/
def resW : CreateResult Nat :=
  ⟨[⟨7, [("a", 0), ("b", 2)]⟩], [(7, [("a", 1), ("b", 2)], true)], [(7, [("a", 0)])]⟩

/-- A form arch with no button box. -/
def archNoButtonBox : Arch :=
  .node "form" [] (.cons (.node "sheet" [] .nil) .nil)

/-- A form arch with one button box. -/
def archWithButtonBox : Arch :=
  .node "form" [] (.cons (.node "div" [("name", "button_box")] .nil) .nil)

theorem addUnique_nodup (acc : List String) (m : String) (h : acc.Nodup) :
    (addUnique acc m).Nodup := by
  unfold addUnique
  split
  · exact h
  · next hnot =>
    simpa [List.nodup_append] using ⟨h, by simpa using hnot⟩

theorem mem_addUnique (acc : List String) (m x : String) :
    x ∈ addUnique acc m ↔ x ∈ acc ∨ x = m := by
  unfold addUnique
  split
  · next hm =>
    constructor
    · exact Or.inl
    · rintro (hx | rfl)
      · exact hx
      · exact hm
  · simp

theorem foldl_addUnique_nodup (l : List String) :
    ∀ acc : List String, acc.Nodup → (l.foldl addUnique acc).Nodup := by
  induction l with
  | nil => intro acc h; simpa using h
  | cons m rest ih =>
    intro acc h
    exact ih (addUnique acc m) (addUnique_nodup acc m h)

theorem mem_foldl_addUnique (l : List String) :
    ∀ (acc : List String) (x : String),
      x ∈ l.foldl addUnique acc ↔ x ∈ acc ∨ x ∈ l := by
  induction l with
  | nil => intro acc x; simp
  | cons m rest ih =>
    intro acc x
    simp only [List.foldl_cons]
    rw [ih]
    rw [mem_addUnique]
    constructor
    · rintro ((hx | rfl) | hx)
      · exact Or.inl hx
      · exact Or.inr (List.mem_cons_self _ _)
      · exact Or.inr (List.mem_cons_of_mem _ hx)
    · rintro (hx | hx)
      · exact Or.inl (Or.inl hx)
      · rcases List.mem_cons.mp hx with rfl | hx
        · exact Or.inl (Or.inr rfl)
        · exact Or.inr hx

theorem mappedRuleModels_nodup (env : Env) : (mappedRuleModels env).Nodup :=
  foldl_addUnique_nodup _ _ List.nodup_nil

theorem mem_mappedRuleModels (env : Env) (x : String) :
    x ∈ mappedRuleModels env ↔ x ∈ env.rule_model_names := by
  unfold mappedRuleModels
  rw [mem_foldl_addUnique]
  simp

theorem models_to_track_changeset_nodup (env : Env) :
    (models_to_track_changeset env).Nodup := by
  simp only [models_to_track_changeset]
  split
  · split
    · exact mappedRuleModels_nodup env
    · next hmem =>
      simpa [List.nodup_append] using ⟨mappedRuleModels_nodup env, by simpa using hmem⟩
  · exact mappedRuleModels_nodup env

theorem mem_models_to_track_changeset (env : Env) (x : String) :
    x ∈ models_to_track_changeset env ↔
      x ∈ env.rule_model_names ∨
        (env.test_enable = true ∧ env.ctx.test_record_changeset = true ∧
          x = "res.partner") := by
  simp only [models_to_track_changeset]
  by_cases ht : (env.test_enable && env.ctx.test_record_changeset) = true
  · rw [if_pos ht]
    rw [Bool.and_eq_true] at ht
    by_cases hm : "res.partner" ∈ mappedRuleModels env
    · rw [if_pos hm, mem_mappedRuleModels]
      constructor
      · exact Or.inl
      · rintro (hx | ⟨-, -, rfl⟩)
        · exact hx
        · exact (mem_mappedRuleModels env _).mp hm
    · rw [if_neg hm]
      simp only [List.mem_append, List.mem_singleton, mem_mappedRuleModels]
      constructor
      · rintro (hx | rfl)
        · exact Or.inl hx
        · exact Or.inr ⟨ht.1, ht.2, rfl⟩
      · rintro (hx | ⟨-, -, rfl⟩)
        · exact Or.inl hx
        · exact Or.inr rfl
  · rw [if_neg ht, mem_mappedRuleModels]
    constructor
    · exact Or.inl
    · rintro (hx | ⟨ht1, ht2, rfl⟩)
      · exact hx
      · exact absurd (by rw [ht1, ht2]; rfl) ht

section InterceptorLemmas

variable {V : Type} [DecidableEq V]

theorem lookupVal_cons (p : String × V) (fs : Vals V) (k : String) :
    lookupVal (p :: fs) k = if p.1 = k then some p.2 else lookupVal fs k := by
  by_cases h : p.1 = k
  · rw [lookupVal, List.find?_cons_of_pos _ (by simpa using h), if_pos h]
    rfl
  · rw [lookupVal, List.find?_cons_of_neg _ (by simpa using h), if_neg h]
    rfl

theorem lookupVal_eq_none (fs : Vals V) (k : String) :
    lookupVal fs k = none ↔ k ∉ fs.map Prod.fst := by
  induction fs with
  | nil => simp [lookupVal]
  | cons p rest ih =>
    rw [lookupVal_cons]
    by_cases h : p.1 = k
    · rw [if_pos h]
      simp only [List.map_cons, List.mem_cons]
      constructor
      · intro hh; cases hh
      · intro hh; exact absurd (Or.inl h.symm) hh
    · rw [if_neg h, ih]
      simp only [List.map_cons, List.mem_cons]
      constructor
      · intro hk hor
        rcases hor with h1 | h2
        · exact h h1.symm
        · exact hk h2
      · intro hk
        exact fun hm => hk (Or.inr hm)

theorem mem_of_lookupVal_eq_some {fs : Vals V} {k : String} {v : V}
    (h : lookupVal fs k = some v) : k ∈ fs.map Prod.fst := by
  by_contra hm
  rw [(lookupVal_eq_none fs k).mpr hm] at h
  cases h

theorem lookupVal_setField_self (fs : Vals V) (k : String) (v : V) :
    lookupVal (setField fs k v) k = some v := by
  induction fs with
  | nil => simp [setField, lookupVal_cons]
  | cons p rest ih =>
    by_cases h : p.1 = k
    · simp [setField, h, lookupVal_cons]
    · simp [setField, h, lookupVal_cons, ih]

theorem lookupVal_setField_ne (fs : Vals V) (k : String) (v : V) (x : String)
    (h : x ≠ k) :
    lookupVal (setField fs k v) x = lookupVal fs x := by
  have h' : ¬k = x := fun hh => h hh.symm
  induction fs with
  | nil => simp [setField, lookupVal_cons, lookupVal, h']
  | cons p rest ih =>
    by_cases hp : p.1 = k
    · simp [setField, hp, lookupVal_cons, h']
    · simp [setField, hp, lookupVal_cons, ih]

theorem applyVals_cons (fs : Vals V) (p : String × V) (vals : Vals V) :
    applyVals fs (p :: vals) = applyVals (setField fs p.1 p.2) vals := rfl

theorem lookupVal_applyVals (vals : Vals V) :
    ∀ (fs : Vals V) (k : String), (vals.map Prod.fst).Nodup →
      lookupVal (applyVals fs vals) k =
        (lookupVal vals k).elim (lookupVal fs k) some := by
  induction vals with
  | nil => intro fs k _; simp [applyVals, lookupVal]
  | cons p rest ih =>
    intro fs k hnd
    rw [List.map_cons, List.nodup_cons] at hnd
    rw [applyVals_cons, ih _ k hnd.2, lookupVal_cons]
    by_cases h : p.1 = k
    · have hr : lookupVal rest k = none := by
        refine (lookupVal_eq_none rest k).mpr ?_
        rw [← h]
        exact hnd.1
      simp [h, hr, lookupVal_setField_self]
    · cases hr : lookupVal rest k with
      | none => simp [h, hr, lookupVal_setField_ne _ _ _ _ (fun hh => h hh.symm)]
      | some w => simp [h, hr]

theorem filterDiffer_isSome (vals : Vals V) (lv : Vals V) :
    (filterDiffer vals lv).isSome = true ↔
      ∀ k ∈ lv.map Prod.fst, k ∈ vals.map Prod.fst := by
  induction lv with
  | nil => simp [filterDiffer]
  | cons p rest ih =>
    obtain ⟨k, v⟩ := p
    rw [filterDiffer]
    cases hk : lookupVal vals k with
    | none =>
      have hm : k ∉ vals.map Prod.fst := (lookupVal_eq_none vals k).mp hk
      simp only [Option.isSome_none, List.map_cons, List.mem_cons]
      constructor
      · intro hh; cases hh
      · intro hall
        exact absurd (hall k (Or.inl rfl)) hm
    | some w =>
      have hm : k ∈ vals.map Prod.fst := mem_of_lookupVal_eq_some hk
      cases hr : filterDiffer vals rest with
      | none =>
        rw [hr] at ih
        simp only [Option.isSome_none, List.map_cons, List.mem_cons] at ih ⊢
        constructor
        · intro hh; cases hh
        · intro hall
          have : ∀ x ∈ rest.map Prod.fst, x ∈ vals.map Prod.fst := by
            intro x hx
            exact hall x (Or.inr hx)
          exact absurd (ih.mpr this) (by simp)
      | some f =>
        rw [hr] at ih
        simp only [Option.isSome_some, true_iff] at ih
        simp only [List.map_cons, List.mem_cons]
        constructor
        · rintro - x hx
          rcases hx with rfl | hx
          · exact hm
          · exact ih x hx
        · intro _
          split <;> simp

theorem filterDiffer_eq_some (vals lv : Vals V)
    (h : ∀ k ∈ lv.map Prod.fst, k ∈ vals.map Prod.fst) :
    filterDiffer vals lv =
      some (lv.filter (fun p => decide (lookupVal vals p.1 ≠ some p.2))) := by
  induction lv with
  | nil => simp [filterDiffer]
  | cons p rest ih =>
    obtain ⟨k, v⟩ := p
    have hk : k ∈ vals.map Prod.fst := h k (by simp)
    obtain ⟨w, hw⟩ : ∃ w, lookupVal vals k = some w := by
      cases hl : lookupVal vals k with
      | none => exact absurd hk (by simpa using (lookupVal_eq_none vals k).mp hl)
      | some w => exact ⟨w, rfl⟩
    rw [filterDiffer, hw, ih (fun x hx => h x (by simp [hx]))]
    by_cases hv : w = v
    · subst hv
      simp [hw, List.filter_cons]
    · have : lookupVal vals k ≠ some v := by
        rw [hw]
        exact fun hh => hv (Option.some.inj hh)
      simp [hv, this, List.filter_cons]

theorem nodupKeys_filter (lv : Vals V) (q : String × V → Bool)
    (h : (lv.map Prod.fst).Nodup) : ((lv.filter q).map Prod.fst).Nodup :=
  ((List.filter_sublist (p := q) lv).map Prod.fst).nodup h

theorem lookupVal_filter (q : String × V → Bool) (k : String) :
    ∀ lv : Vals V, (lv.map Prod.fst).Nodup →
      lookupVal (lv.filter q) k =
        (lookupVal lv k).elim none (fun v => if q (k, v) then some v else none) := by
  intro lv
  induction lv with
  | nil => intro _; simp [lookupVal]
  | cons p rest ih =>
    intro hnd
    obtain ⟨k1, v1⟩ := p
    rw [List.map_cons, List.nodup_cons] at hnd
    rw [List.filter_cons, lookupVal_cons]
    by_cases hq : q (k1, v1) = true
    · rw [if_pos hq, lookupVal_cons]
      by_cases hk : k1 = k
      · subst hk
        simp [hq]
      · rw [if_neg hk, if_neg hk]
        exact ih hnd.2
    · rw [if_neg hq]
      by_cases hk : k1 = k
      · subst hk
        have hnone : lookupVal (rest.filter q) k1 = none := by
          refine (lookupVal_eq_none _ _).mpr ?_
          intro hmem
          exact hnd.1 (((List.filter_sublist (p := q) rest).map Prod.fst).mem hmem)
        simp [hnone, hq]
      · rw [if_neg hk]
        exact ih hnd.2

theorem changeset_disabled_innerEnv (env : Env) (name : String) :
    changeset_disabled (innerEnv env) name = true := by
  simp [changeset_disabled, innerEnv]

theorem create_one_eq (env : Env) (name : String) (addCs : AddChangeset V)
    (defaults : Vals V) (id : Nat) (vals : Vals V) (r : Rec V)
    (ws : List (Nat × Vals V))
    (h : create_one env name addCs defaults id vals = some (r, ws)) :
    ∃ filtered,
      filterDiffer vals (addCs (Rec.mk id (applyVals defaults vals)) vals true)
        = some filtered ∧
      r = Rec.mk id (applyVals (applyVals defaults vals) filtered) ∧
      ws = (if filtered.isEmpty then [] else [(id, filtered)]) := by
  simp only [create_one] at h
  split at h
  · exact Option.noConfusion h
  · next f hf =>
    refine ⟨f, hf, ?_, ?_⟩
    · split at h
      · next he =>
        have hfe : f = [] := List.isEmpty_iff.mp he
        subst hfe
        simp only [Option.some.injEq, Prod.mk.injEq] at h
        exact h.1.symm
      · next he =>
        simp only [Option.some.injEq, Prod.mk.injEq] at h
        rw [← h.1]
        simp [write1, changeset_disabled_innerEnv, super_write]
    · split at h
      · next he =>
        simp only [Option.some.injEq, Prod.mk.injEq] at h
        rw [if_pos he, ← h.2]
      · next he =>
        simp only [Option.some.injEq, Prod.mk.injEq] at h
        rw [if_neg he, ← h.2]

theorem create_one_lookup (env : Env) (name : String) (addCs : AddChangeset V)
    (defaults : Vals V) (id : Nat) (vals : Vals V) (r : Rec V)
    (ws : List (Nat × Vals V))
    (hv : (vals.map Prod.fst).Nodup)
    (hlv : ((addCs (Rec.mk id (applyVals defaults vals)) vals true).map Prod.fst).Nodup)
    (h : create_one env name addCs defaults id vals = some (r, ws)) :
    r.id = id ∧
    (∀ k v,
      lookupVal (addCs (Rec.mk id (applyVals defaults vals)) vals true) k = some v →
      lookupVal r.fields k = some v) ∧
    (∀ k,
      lookupVal (addCs (Rec.mk id (applyVals defaults vals)) vals true) k = none →
      lookupVal r.fields k = lookupVal (applyVals defaults vals) k) := by
  obtain ⟨f, hf, hr, -⟩ := create_one_eq env name addCs defaults id vals r ws h
  have hkeys : ∀ k ∈ (addCs (Rec.mk id (applyVals defaults vals)) vals true).map Prod.fst,
      k ∈ vals.map Prod.fst := by
    refine (filterDiffer_isSome vals _).mp ?_
    rw [hf]
    rfl
  have hfeq : f = (addCs (Rec.mk id (applyVals defaults vals)) vals true).filter
      (fun p => decide (lookupVal vals p.1 ≠ some p.2)) := by
    have h2 := filterDiffer_eq_some vals _ hkeys
    rw [hf] at h2
    exact Option.some.inj h2
  have hndf : (f.map Prod.fst).Nodup := by
    rw [hfeq]
    exact nodupKeys_filter _ _ hlv
  subst hr
  refine ⟨rfl, ?_, ?_⟩
  · intro k v hlvk
    show lookupVal (applyVals (applyVals defaults vals) f) k = some v
    rw [lookupVal_applyVals f (applyVals defaults vals) k hndf, hfeq,
      lookupVal_filter _ k _ hlv, hlvk]
    by_cases hvk : lookupVal vals k = some v
    · simp only [hvk, ne_eq, not_true_eq_false, decide_False, Bool.false_eq_true,
        if_false, Option.elim_some, Option.elim_none]
      rw [lookupVal_applyVals vals defaults k hv, hvk]
      rfl
    · simp [hvk]
  · intro k hnone
    show lookupVal (applyVals (applyVals defaults vals) f) k
        = lookupVal (applyVals defaults vals) k
    rw [lookupVal_applyVals f (applyVals defaults vals) k hndf, hfeq,
      lookupVal_filter _ k _ hlv, hnone]
    rfl

theorem create_one_isSome (env : Env) (name : String) (addCs : AddChangeset V)
    (defaults : Vals V) (id : Nat) (vals : Vals V) :
    (create_one env name addCs defaults id vals).isSome = true ↔
      ∀ k ∈ (addCs (Rec.mk id (applyVals defaults vals)) vals true).map Prod.fst,
        k ∈ vals.map Prod.fst := by
  rw [← filterDiffer_isSome]
  simp only [create_one]
  cases hf : filterDiffer vals (addCs (Rec.mk id (applyVals defaults vals)) vals true) with
  | none => simp
  | some f => by_cases he : f.isEmpty <;> simp [he]

theorem createAll_spec (env : Env) (name : String) (addCs : AddChangeset V)
    (defaults : Vals V) :
    ∀ (l : List (Vals V)) (id : Nat) (rs : List (Rec V)) (ws : List (Nat × Vals V)),
      createAll env name addCs defaults id l = some (rs, ws) →
      rs.length = l.length ∧
      ∀ i (hi : i < l.length) (hi' : i < rs.length),
        ∃ w, create_one env name addCs defaults (id + i) (l.get ⟨i, hi⟩)
          = some (rs.get ⟨i, hi'⟩, w) := by
  intro l
  induction l with
  | nil =>
    intro id rs ws h
    simp only [createAll, Option.some.injEq, Prod.mk.injEq] at h
    obtain ⟨h1, h2⟩ := h
    subst h1
    exact ⟨rfl, fun i hi _ => absurd hi (by simp)⟩
  | cons vals rest ih =>
    intro id rs ws h
    simp only [createAll] at h
    cases h1 : create_one env name addCs defaults id vals with
    | none => rw [h1] at h; cases h
    | some rw1 =>
      obtain ⟨r, w⟩ := rw1
      rw [h1] at h
      cases h2 : createAll env name addCs defaults (id + 1) rest with
      | none => rw [h2] at h; cases h
      | some rsws =>
        obtain ⟨rs2, ws2⟩ := rsws
        rw [h2] at h
        simp only [Option.some.injEq, Prod.mk.injEq] at h
        obtain ⟨hrs, hws⟩ := h
        obtain ⟨hlen, hidx⟩ := ih (id + 1) rs2 ws2 h2
        subst hrs
        refine ⟨by simp [hlen], ?_⟩
        intro i hi hi'
        cases i with
        | zero =>
          refine ⟨w, ?_⟩
          simpa using h1
        | succ n =>
          have hn : n < rest.length := by simpa using hi
          have hn' : n < rs2.length := by
            rw [hlen]
            exact hn
          obtain ⟨w2, hw2⟩ := hidx n hn hn'
          refine ⟨w2, ?_⟩
          have hid : id + (n + 1) = (id + 1) + n := by omega
          rw [hid]
          simpa using hw2

theorem createAll_isSome (env : Env) (name : String) (addCs : AddChangeset V)
    (defaults : Vals V) :
    ∀ (l : List (Vals V)) (id : Nat),
      (createAll env name addCs defaults id l).isSome = true ↔
        ∀ i (hi : i < l.length),
          ∀ k ∈ (addCs (Rec.mk (id + i) (applyVals defaults (l.get ⟨i, hi⟩)))
                  (l.get ⟨i, hi⟩) true).map Prod.fst,
            k ∈ (l.get ⟨i, hi⟩).map Prod.fst := by
  intro l
  induction l with
  | nil =>
    intro id
    simp only [createAll]
    constructor
    · intro _ i hi
      exact absurd hi (by simp)
    · intro _
      rfl
  | cons vals rest ih =>
    intro id
    simp only [createAll]
    cases h1 : create_one env name addCs defaults id vals with
    | none =>
      have hnot := (create_one_isSome env name addCs defaults id vals).not
      rw [h1] at hnot
      simp only [Option.isSome_none, Bool.false_eq_true, not_false_iff, true_iff] at hnot
      constructor
      · intro hh; cases hh
      · intro hall
        exact absurd (by simpa using hall 0 (by simp)) hnot
    | some rw1 =>
      obtain ⟨r, w⟩ := rw1
      have hsome := (create_one_isSome env name addCs defaults id vals).mp (by rw [h1]; rfl)
      cases h2 : createAll env name addCs defaults (id + 1) rest with
      | none =>
        have hnot := (ih (id + 1)).not
        rw [h2] at hnot
        simp only [Option.isSome_none, Bool.false_eq_true, not_false_iff, true_iff] at hnot
        constructor
        · intro hh; cases hh
        · intro hall
          refine absurd ?_ hnot
          intro i hi
          have hid : (id + 1) + i = id + (i + 1) := by omega
          have := hall (i + 1) (by simpa using hi)
          rw [hid]
          simpa using this
      | some rsws =>
        obtain ⟨rs2, ws2⟩ := rsws
        have hrest := (ih (id + 1)).mp (by rw [h2]; rfl)
        constructor
        · intro _ i hi
          cases i with
          | zero => simpa using hsome
          | succ n =>
            have hn : n < rest.length := by simpa using hi
            have hid : id + (n + 1) = (id + 1) + n := by omega
            rw [hid]
            simpa using hrest n hn
        · intro _
          rfl

theorem create_eq_of_enabled (env : Env) (name : String) (addCs : AddChangeset V)
    (defaults : Vals V) (nextId : Nat) (vals_list : List (Vals V))
    (hen : changeset_disabled env name = false) :
    create env name addCs defaults nextId vals_list =
      match createAll env name addCs defaults nextId vals_list with
      | none => none
      | some (rs, ws) =>
        some ⟨rs, (List.enumFrom nextId vals_list).map (fun p => (p.1, p.2, true)), ws⟩ := by
  simp [create, hen]

end InterceptorLemmas

theorem countNodes_node (p : String → List (String × String) → Bool)
    (tag : String) (attrs : List (String × String)) (cs : ArchList) :
    countNodes p (Arch.node tag attrs cs)
      = (if p tag attrs then 1 else 0) + countNodesList p cs := rfl

theorem countNodesList_nil (p : String → List (String × String) → Bool) :
    countNodesList p ArchList.nil = 0 := rfl

theorem countNodesList_cons (p : String → List (String × String) → Bool)
    (a : Arch) (as : ArchList) :
    countNodesList p (ArchList.cons a as) = countNodes p a + countNodesList p as := rfl

mutual

theorem countNodes_insertSmartButton (p : String → List (String × String) → Bool) :
    ∀ a : Arch,
      countNodes p (insertSmartButton a)
        = countNodes p a + countNodes p xml_button * countNodes isButtonBox a
  | .node tag attrs cs => by
    have hcs := countNodesList_insertSmartButtonList p cs
    simp only [insertSmartButton]
    by_cases hbb : isButtonBox tag attrs = true
    · rw [if_pos hbb]
      simp only [countNodes_node, countNodesList_cons]
      rw [hcs, if_pos hbb]
      ring
    · rw [if_neg hbb]
      simp only [countNodes_node, countNodesList_cons]
      rw [hcs, if_neg hbb]
      ring

theorem countNodesList_insertSmartButtonList (p : String → List (String × String) → Bool) :
    ∀ as : ArchList,
      countNodesList p (insertSmartButtonList as)
        = countNodesList p as + countNodes p xml_button * countNodesList isButtonBox as
  | .nil => by simp [insertSmartButtonList, countNodesList_nil]
  | .cons a as => by
    have h1 := countNodes_insertSmartButton p a
    have h2 := countNodesList_insertSmartButtonList p as
    simp only [insertSmartButtonList, countNodesList_cons, h1, h2]
    ring

end

theorem countNodes_xml_button_button : countNodes isButtonNode xml_button = 1 := rfl

theorem countNodes_xml_button_field : countNodes isFieldNode xml_button = 2 := rfl

/-- Claim C1: with changesets enabled, `create` makes one
`add_changeset(record, vals, create=True)` call per requested dict; the
inner write-back context carries the sentinel and `tracking_disable` and is
changeset-disabled; and on each created record every value `add_changeset`
returned is present (values equal to the request were already set by the
host create, differing ones — the deferred fields' pre-change values —
were written back), while every other field keeps the host-create value. -/
theorem create_intercepts {V : Type} [DecidableEq V] (env : Env) (name : String)
    (addCs : AddChangeset V) (defaults : Vals V) (nextId : Nat)
    (vals_list : List (Vals V)) (res : CreateResult V)
    (hen : changeset_disabled env name = false)
    (hv : ∀ vals ∈ vals_list, (vals.map Prod.fst).Nodup)
    (hlv : ∀ (r : Rec V) (vals : Vals V), ((addCs r vals true).map Prod.fst).Nodup)
    (h : create env name addCs defaults nextId vals_list = some res) :
    res.csCalls = (List.enumFrom nextId vals_list).map (fun p => (p.1, p.2, true)) ∧
    ((innerEnv env).ctx.no_changeset = true ∧
      (innerEnv env).ctx.tracking_disable = true ∧
      changeset_disabled (innerEnv env) name = true) ∧
    res.recs.length = vals_list.length ∧
    ∀ i (hi : i < vals_list.length) (hi' : i < res.recs.length),
      (res.recs.get ⟨i, hi'⟩).id = nextId + i ∧
      (∀ k v,
        lookupVal (addCs (Rec.mk (nextId + i)
            (applyVals defaults (vals_list.get ⟨i, hi⟩))) (vals_list.get ⟨i, hi⟩) true) k
          = some v →
        lookupVal (res.recs.get ⟨i, hi'⟩).fields k = some v) ∧
      (∀ k,
        lookupVal (addCs (Rec.mk (nextId + i)
            (applyVals defaults (vals_list.get ⟨i, hi⟩))) (vals_list.get ⟨i, hi⟩) true) k
          = none →
        lookupVal (res.recs.get ⟨i, hi'⟩).fields k
          = lookupVal (applyVals defaults (vals_list.get ⟨i, hi⟩)) k) := by
  rw [create_eq_of_enabled env name addCs defaults nextId vals_list hen] at h
  split at h
  · exact Option.noConfusion h
  · next rs ws hca =>
    have hres := Option.some.inj h
    subst hres
    obtain ⟨hlen, hidx⟩ := createAll_spec env name addCs defaults vals_list nextId rs ws hca
    refine ⟨rfl, ⟨rfl, rfl, changeset_disabled_innerEnv env name⟩, hlen, ?_⟩
    intro i hi hi'
    obtain ⟨w, hw⟩ := hidx i hi hi'
    exact create_one_lookup env name addCs defaults (nextId + i) (vals_list.get ⟨i, hi⟩)
      (rs.get ⟨i, hi'⟩) w (hv _ (vals_list.get_mem i hi)) (hlv _ _) hw

/-- Witness for C1 at a concrete input: defaults `a=0, b=0`, request
`a=1, b=2`, `add_changeset` defers `a` (returns origin `0`) and approves
`b` (returns `2`): the created record ends with `a=0` and `b=2`. -/
theorem create_intercepts_witness :
    create envW "res.partner" addCsW defaultsW 7 [valsW] = some resW ∧
    lookupVal ((resW.recs).get ⟨0, by decide⟩).fields "a" = some 0 ∧
    lookupVal ((resW.recs).get ⟨0, by decide⟩).fields "b" = some 2 := by
  have hc : create envW "res.partner" addCsW defaultsW 7 [valsW] = some resW := by decide
  have h := create_intercepts envW "res.partner" addCsW defaultsW 7 [valsW] resW
    (by decide)
    (by intro vals hm; rw [List.mem_singleton] at hm; subst hm; decide)
    (by intro r vals; simp only [addCsW]; decide)
    hc
  have h0 := (h.2.2.2) 0 (by decide) (by decide)
  exact ⟨hc, h0.2.1 "a" 0 (by decide), h0.2.1 "b" 2 (by decide)⟩

/-- Claim C2: with changesets enabled, `write` returns `True` regardless of
what `add_changeset` deferred, and only the values `add_changeset` returns
reach the base update path, per record individually. -/
theorem write_reports_success {V : Type} [DecidableEq V] (env : Env) (name : String)
    (addCs : AddChangeset V) (superRet : Bool) (recs : List (Rec V))
    (values : Vals V)
    (hen : changeset_disabled env name = false) :
    (write env name addCs superRet recs values).2 = true ∧
    (write env name addCs superRet recs values).1
      = recs.map (fun r => super_write r (addCs r values false)) := by
  simp [write, hen]

/-- Witness for C2: even with the host return modelled as `false`, the
interceptor reports `true`. -/
theorem write_reports_success_witness :
    (write envW "res.partner" addCsW false [recW] valsW).2 = true :=
  (write_reports_success envW "res.partner" addCsW false [recW] valsW (by decide)).1

/-- Claim C3: for an entity type outside the tracked set, `create` is
exactly the host create (no changeset call, no inner write) and `write`
is exactly the host write. -/
theorem untracked_create_write_base {V : Type} [DecidableEq V] (env : Env)
    (name : String) (addCs : AddChangeset V) (defaults : Vals V) (nextId : Nat)
    (vals_list : List (Vals V)) (superRet : Bool) (recs : List (Rec V))
    (values : Vals V)
    (hname : name ∉ models_to_track_changeset env) :
    create env name addCs defaults nextId vals_list
      = some ⟨base_create defaults nextId vals_list, [], []⟩ ∧
    write env name addCs superRet recs values = base_write superRet recs values := by
  have hdis : changeset_disabled env name = true := by
    cases h1 : env.ctx.no_changeset <;>
      cases h2 : env.test_enable && !env.ctx.test_record_changeset <;>
        simp [changeset_disabled, h1, h2, hname]
  exact ⟨by simp [create, hdis, base_create], by simp [write, hdis, base_write]⟩

/-- Witness for C3: `x.model` has no rule in `envW`. -/
theorem untracked_create_write_base_witness :
    create envW "x.model" addCsW defaultsW 7 [valsW]
      = some ⟨base_create defaultsW 7 [valsW], [], []⟩ :=
  (untracked_create_write_base envW "x.model" addCsW defaultsW 7 [valsW] true
    [recW] valsW (by decide)).1

/-- Claim C4: interception is disabled exactly when the context sentinel is
set, or the test harness is active without the `test_record_changeset`
flag, or the model is untracked; and the sentinel alone bypasses both
`create` and `write`. -/
theorem changeset_disabled_spec {V : Type} [DecidableEq V] (env : Env)
    (name : String) :
    (changeset_disabled env name = true ↔
      env.ctx.no_changeset = true ∨
        (env.test_enable = true ∧ env.ctx.test_record_changeset = false) ∨
        name ∉ models_to_track_changeset env) ∧
    (env.ctx.no_changeset = true →
      (∀ (addCs : AddChangeset V) (defaults : Vals V) (nextId : Nat)
          (vals_list : List (Vals V)),
        create env name addCs defaults nextId vals_list
          = some ⟨super_create defaults nextId vals_list, [], []⟩) ∧
      (∀ (addCs : AddChangeset V) (superRet : Bool) (recs : List (Rec V))
          (values : Vals V),
        write env name addCs superRet recs values
          = (recs.map (fun r => super_write r values), superRet))) := by
  constructor
  · cases henv : env.ctx.no_changeset <;> cases hte : env.test_enable <;>
      cases htr : env.ctx.test_record_changeset <;>
        by_cases h3 : name ∈ models_to_track_changeset env <;>
          simp [changeset_disabled, henv, hte, htr, h3]
  · intro hnc
    have hdis : changeset_disabled env name = true := by
      simp [changeset_disabled, hnc]
    constructor
    · intro addCs defaults nextId vals_list
      simp [create, hdis]
    · intro addCs superRet recs values
      simp [write, hdis]

/-- Witness for C4: with the sentinel, interception is disabled and
`create` is the plain host create. -/
theorem changeset_disabled_spec_witness :
    changeset_disabled envSentinel "res.partner" = true ∧
    create envSentinel "res.partner" addCsW defaultsW 7 [valsW]
      = some ⟨super_create defaultsW 7 [valsW], [], []⟩ :=
  ⟨(changeset_disabled_spec (V := Nat) envSentinel "res.partner").1.mpr (Or.inl rfl),
    ((changeset_disabled_spec (V := Nat) envSentinel "res.partner").2 rfl).1
      addCsW defaultsW 7 [valsW]⟩

/-- Claim C5: the permission check is true for a superuser unconditionally,
and for a non-superuser exactly when the user is in
`base_changeset.group_changeset_user`; the computed field takes that same
value on every record. -/
theorem user_can_see_changeset_spec {V : Type} (env : Env) (recs : List (Rec V)) :
    (env.is_superuser = true → user_can_see_changeset env = true) ∧
    (env.is_superuser = false →
      (user_can_see_changeset env = true ↔ env.has_group_changeset_user = true)) ∧
    (∀ b ∈ compute_user_can_see_changeset env recs, b = user_can_see_changeset env) := by
  refine ⟨?_, ?_, ?_⟩
  · intro h
    simp [user_can_see_changeset, h]
  · intro h
    simp [user_can_see_changeset, h]
  · intro b hb
    obtain ⟨r, -, hr⟩ := List.mem_map.mp hb
    exact hr.symm

/-- Witness for C5: a non-superuser in the group can see changesets, and
the computed field carries that value. -/
theorem user_can_see_changeset_spec_witness :
    user_can_see_changeset envGroup = true ∧
    compute_user_can_see_changeset envGroup ([recW] : List (Rec Nat)) = [true] :=
  ⟨((user_can_see_changeset_spec (V := Nat) envGroup [recW]).2.1 rfl).mpr rfl, rfl⟩

/-- Claim C6 counterexample: on a form view of a tracked model for a
permitted user whose arch has no button-box container, `get_view` inserts
nothing at all — the arch is returned unchanged — although the claim's
conditions hold, refuting the claimed "exactly one button and two fields
if and only if" equivalence. -/
theorem get_view_counterexample :
    ("form" = "form" ∧ "res.partner" ∈ models_to_track_changeset envW ∧
      user_can_see_changeset envW = true) ∧
    get_view envW "res.partner" "form" archNoButtonBox = archNoButtonBox ∧
    countNodes isButtonNode (get_view envW "res.partner" "form" archNoButtonBox)
      = countNodes isButtonNode archNoButtonBox :=
  ⟨⟨rfl, by decide, rfl⟩, rfl, rfl⟩

/-- Claim C6 (amended): `get_view` inserts one button and two field
elements into each button-box container — hence exactly one button and
two fields when the arch has exactly one such container — precisely when
the view type is `form`, the model is tracked and the user has permission;
in every other case the arch is unchanged. -/
theorem get_view_spec (env : Env) (name view_type : String) (arch : Arch) :
    (¬(view_type = "form" ∧ name ∈ models_to_track_changeset env ∧
        user_can_see_changeset env = true) →
      get_view env name view_type arch = arch) ∧
    ((view_type = "form" ∧ name ∈ models_to_track_changeset env ∧
        user_can_see_changeset env = true) →
      countNodes isButtonNode (get_view env name view_type arch)
        = countNodes isButtonNode arch + countNodes isButtonBox arch ∧
      countNodes isFieldNode (get_view env name view_type arch)
        = countNodes isFieldNode arch + 2 * countNodes isButtonBox arch) := by
  constructor
  · intro h
    unfold get_view
    rw [if_neg h]
  · intro h
    have hins : get_view env name view_type arch = insertSmartButton arch := by
      unfold get_view
      rw [if_pos h]
    rw [hins]
    refine ⟨?_, ?_⟩
    · rw [countNodes_insertSmartButton isButtonNode arch, countNodes_xml_button_button]
      ring
    · rw [countNodes_insertSmartButton isFieldNode arch, countNodes_xml_button_field]

/-- Witness for the amended C6 at an arch with one button box. -/
theorem get_view_spec_witness :
    countNodes isButtonNode (get_view envW "res.partner" "form" archWithButtonBox)
      = countNodes isButtonNode archWithButtonBox
        + countNodes isButtonBox archWithButtonBox ∧
    countNodes isFieldNode (get_view envW "res.partner" "form" archWithButtonBox)
      = countNodes isFieldNode archWithButtonBox
        + 2 * countNodes isButtonBox archWithButtonBox :=
  (get_view_spec envW "res.partner" "form" archWithButtonBox).2 ⟨rfl, by decide, rfl⟩

/-- Claim C7: the tracked-model list is deduplicated, its members come from
the rule records (plus the test-only entry), in test mode with the flag it
contains `res.partner` exactly once, and the test entry is appended at the
end only when not already present. -/
theorem models_to_track_changeset_spec (env : Env) :
    (models_to_track_changeset env).Nodup ∧
    (∀ x, x ∈ models_to_track_changeset env ↔
      x ∈ env.rule_model_names ∨
        (env.test_enable = true ∧ env.ctx.test_record_changeset = true ∧
          x = "res.partner")) ∧
    (env.test_enable = true → env.ctx.test_record_changeset = true →
      (models_to_track_changeset env).count "res.partner" = 1) ∧
    ("res.partner" ∈ mappedRuleModels env →
      models_to_track_changeset env = mappedRuleModels env) ∧
    ("res.partner" ∉ mappedRuleModels env → env.test_enable = true →
      env.ctx.test_record_changeset = true →
      models_to_track_changeset env = mappedRuleModels env ++ ["res.partner"]) := by
  refine ⟨models_to_track_changeset_nodup env, mem_models_to_track_changeset env,
    ?_, ?_, ?_⟩
  · intro h1 h2
    have hmem : "res.partner" ∈ models_to_track_changeset env :=
      (mem_models_to_track_changeset env _).mpr (Or.inr ⟨h1, h2, rfl⟩)
    exact List.count_eq_one_of_mem (models_to_track_changeset_nodup env) hmem
  · intro hm
    simp only [models_to_track_changeset]
    by_cases ht : (env.test_enable && env.ctx.test_record_changeset) = true
    · rw [if_pos ht, if_pos hm]
    · rw [if_neg ht]
  · intro hm h1 h2
    simp only [models_to_track_changeset]
    rw [if_pos (by rw [h1, h2]; rfl), if_neg hm]

/-- Witness for C7: duplicated rules, test harness and flag on. -/
theorem models_to_track_changeset_spec_witness :
    (models_to_track_changeset envTestFlags).count "res.partner" = 1 ∧
    models_to_track_changeset envTestFlags
      = ["crm.lead", "sale.order", "res.partner"] :=
  ⟨(models_to_track_changeset_spec envTestFlags).2.2.1 rfl rfl, by decide⟩

/-- Claim C8 counterexample: with no `search_default_record_id` in the
context, the returned descriptor has no domain, contradicting the claim
that the domain is present on every call. -/
theorem action_view_domain_missing :
    (action_record_changeset_change_view envNoRecordId "res.partner").domain
      = none := rfl

/-- Claim C8 (amended): the descriptor always carries the model
`record.changeset.change`, the act-window type and the view ids; the
domain restricting to the current entity type and record id is present iff
the context supplies a truthy `search_default_record_id` (in the code the
domain is added only in that case, not unconditionally). -/
theorem action_record_changeset_change_view_spec (env : Env) (name : String) :
    (action_record_changeset_change_view env name).res_model
      = "record.changeset.change" ∧
    (action_record_changeset_change_view env name).act_type
      = "ir.actions.act_window" ∧
    (action_record_changeset_change_view env name).views
      = [(env.tree_view_id, "list")] ∧
    (∀ rid, env.ctx.search_default_record_id = some rid → rid ≠ 0 →
      (action_record_changeset_change_view env name).domain = some (name, rid)) ∧
    (env.ctx.search_default_record_id = none ∨
      env.ctx.search_default_record_id = some 0 →
      (action_record_changeset_change_view env name).domain = none) := by
  cases hc : env.ctx.search_default_record_id with
  | none =>
    refine ⟨?_, ?_, ?_, ?_, ?_⟩ <;> simp [action_record_changeset_change_view, hc]
  | some rid0 =>
    by_cases h0 : rid0 = 0
    · subst h0
      refine ⟨?_, ?_, ?_, ?_, ?_⟩ <;> simp [action_record_changeset_change_view, hc]
    · refine ⟨?_, ?_, ?_, ?_, ?_⟩ <;>
        simp [action_record_changeset_change_view, hc, h0]

/-- Witness for the amended C8: context record id 5 yields the domain. -/
theorem action_record_changeset_change_view_spec_witness :
    (action_record_changeset_change_view envRecId5 "res.partner").domain
      = some ("res.partner", 5) :=
  (action_record_changeset_change_view_spec envRecId5 "res.partner").2.2.2.1 5 rfl
    (by decide)

/-- Claim C9: for an entity type outside the tracked set all three
computed counters are zero, even when stored changesets match the
record. -/
theorem untracked_counts_zero (env : Env) (name : String) (rid : Nat)
    (h : name ∉ models_to_track_changeset env) :
    compute_counts env name rid = (0, 0, 0) := by
  simp [compute_counts, h]

/-- Witness for C9: a matching draft changeset exists for `x.model` id 5,
yet the counters are zero because `x.model` is untracked. -/
theorem untracked_counts_zero_witness :
    (changeset_ids envW9 "x.model" 5).length = 1 ∧
    compute_counts envW9 "x.model" 5 = (0, 0, 0) :=
  ⟨by decide, untracked_counts_zero envW9 "x.model" 5 (by decide)⟩

/-- Claim C10: the write-back filter looks `vals[key]` up for every key of
the `add_changeset` result, so `create` succeeds iff every returned key is
among the requested field names; under that precondition the filter is
total, and the inner write happens only when the filtered dict is
non-empty. -/
theorem create_filter_total {V : Type} [DecidableEq V] (env : Env) (name : String)
    (addCs : AddChangeset V) (defaults : Vals V) (nextId : Nat)
    (vals_list : List (Vals V))
    (hen : changeset_disabled env name = false) :
    ((create env name addCs defaults nextId vals_list).isSome = true ↔
      ∀ i (hi : i < vals_list.length),
        ∀ k ∈ (addCs (Rec.mk (nextId + i)
                (applyVals defaults (vals_list.get ⟨i, hi⟩)))
                (vals_list.get ⟨i, hi⟩) true).map Prod.fst,
          k ∈ (vals_list.get ⟨i, hi⟩).map Prod.fst) ∧
    (∀ vals lv : Vals V, (filterDiffer vals lv).isSome = true ↔
      ∀ k ∈ lv.map Prod.fst, k ∈ vals.map Prod.fst) ∧
    (∀ (id : Nat) (vals : Vals V) (r : Rec V) (ws : List (Nat × Vals V)),
      create_one env name addCs defaults id vals = some (r, ws) →
      (ws ≠ [] ↔
        filterDiffer vals (addCs (Rec.mk id (applyVals defaults vals)) vals true)
          ≠ some [])) := by
  refine ⟨?_, filterDiffer_isSome, ?_⟩
  · rw [create_eq_of_enabled env name addCs defaults nextId vals_list hen,
      ← createAll_isSome env name addCs defaults vals_list nextId]
    cases hca : createAll env name addCs defaults nextId vals_list with
    | none => simp
    | some rsws =>
      obtain ⟨a, b⟩ := rsws
      simp
  · intro id vals r ws h
    obtain ⟨f, hf, -, hws⟩ := create_one_eq env name addCs defaults id vals r ws h
    rw [hf, hws]
    by_cases he : f.isEmpty
    · have hfe : f = [] := List.isEmpty_iff.mp he
      subst hfe
      simp
    · have hne : f ≠ [] := fun hh => he (by simp [hh])
      rw [if_neg he]
      simp [hne]

/-- Witness for C10: at the sample input the inner write list is non-empty
and the filtered dict is non-empty. -/
theorem create_filter_total_witness :
    ([(7, [("a", 0)])] : List (Nat × Vals Nat)) ≠ [] ↔
      filterDiffer valsW (addCsW (Rec.mk 7 (applyVals defaultsW valsW)) valsW true)
        ≠ some [] :=
  (create_filter_total envW "res.partner" addCsW defaultsW 7 [valsW] (by decide)).2.2 7
    valsW (Rec.mk 7 [("a", 0), ("b", 2)]) [(7, [("a", 0)])] (by decide)

end BaseChangeset
